import Mathlib

/-!
Verification of the bank-agent conversational-state extraction and
mixed-content interpretation pipeline.

The embedding follows the two source files that carry the decision logic:

* `src/frontend/app/api/slot-extract/route.ts` — Korean money/duration
  lexical parsers, the tri-state keyword detector and the rule-based
  slot/eligibility extractor (`ruleBasedExtract`).
* `src/frontend/app/page.tsx` — the assistant-message content segmenter
  (`splitTextAndJsonBlocks`) and the payload classifier used by
  `AssistantBubble` (`isProductResult` / `isSlotState`).

Strings are modelled as `List Char`.  JavaScript regular-expression
searches are modelled by explicit leftmost scans over suffixes; for each
regular expression of the source the scan is written out with the
backtracking behaviour that the concrete pattern exhibits.  `JSON.parse`
(a platform builtin, not repository code) is modelled by an executable
recursive-descent JSON parser over a `JsonValue` tree; JSON numbers keep
their raw lexeme.

JavaScript numbers are IEEE-754 doubles.  The aspects of them that the
theorems below depend on are modelled exactly in integer arithmetic: the
truthiness of a decoded JSON number (zero iff its exact decimal value is
at most the underflow threshold `2^(-1075)`), and the finiteness test of
`Number.isFinite` on a parsed digit run (finite iff the exact value is
below the overflow threshold `2^1024 - 2^970`).  Magnitudes themselves
are kept as exact naturals: above `2^53` the program's doubles lose
precision where the model does not, so the theorems below use parsed
magnitudes only parametrically (which slot a found amount lands in, found
versus absent) or at concrete small inputs, never through a universal
statement about large magnitudes.
-/

namespace BankAgent

/-- Shorthand turning a string literal into the `List Char` the model uses. -/
def cs (s : String) : List Char := s.toList

/-- Character class of the JavaScript `\s` regex class and of
`String.prototype.trim` (WhiteSpace plus LineTerminator). -/
def isJsWs (c : Char) : Bool :=
  c = ' ' || c = '\t' || c = '\n' || c = '\r' ||
  c = '\x0b' || c = '\x0c' ||
  c = ' ' || c = ' ' ||
  (' ' ≤ c && c ≤ ' ') ||
  c = ' ' || c = ' ' || c = ' ' || c = ' ' ||
  c = '　' || c = '﻿'

/-- Model of `String.prototype.trim`: strip `isJsWs` characters from both ends. -/
def jsTrim (s : List Char) : List Char :=
  ((s.dropWhile isJsWs).reverse.dropWhile isJsWs).reverse

/-- Model of `text.replace(/,/g, "")`. -/
def removeCommas (s : List Char) : List Char := s.filter (fun c => c ≠ ',')

/-- Exact value of a digit string.  JavaScript `Number` returns its
correctly rounded double, which agrees with this below `2^53` and
overflows to `Infinity` from about 309 digits; where one of those aspects
matters to a theorem the exact threshold is applied at the use site
(`parseMonths`), and no theorem states a universal property of magnitudes
in the lossy range. -/
def digitsToNat (ds : List Char) : ℕ :=
  ds.foldl (fun a c => 10 * a + (c.toNat - '0'.toNat)) 0

/-- Case-insensitive character comparison, as used by regex flag `i` on the
ASCII patterns of the source. -/
def ciEq (a b : Char) : Bool := a.toLower == b.toLower

/-- Whether `p` is a case-insensitive prefix of `s`. -/
def ciStarts : List Char → List Char → Bool
  | [], _ => true
  | _ :: _, [] => false
  | a :: ps, b :: ss => ciEq a b && ciStarts ps ss

/- ----------------------------------------------------------------- -/
/- Money parser: `parseKoreanMoney` of route.ts                       -/
/- ----------------------------------------------------------------- -/

/-- Unit alternation `(억|천만원|백만원|만원|만|원)` of the money regex, tried
in source order at a fixed position; yields the multiplier of the unit. -/
def moneyUnit (s : List Char) : Option ℕ :=
  if (cs "억").isPrefixOf s then some 100000000
  else if (cs "천만원").isPrefixOf s then some 10000000
  else if (cs "백만원").isPrefixOf s then some 1000000
  else if (cs "만원").isPrefixOf s then some 10000
  else if (cs "만").isPrefixOf s then some 10000
  else if (cs "원").isPrefixOf s then some 1
  else none

/-- Round-half-up of the fraction `num / den`, i.e. `⌊num/den + 1/2⌋` on
nonnegative values: the behaviour of `Math.round` there. -/
def roundHalfUp (num den : ℕ) : ℕ := (2 * num + den) / (2 * den)

/-- Value of `Math.round(Number("ip.fp") * mult)` computed in exact
rational arithmetic: `ip` are the integer digits, `fp` the fractional
digits.  The program computes this in doubles, which can diverge from the
exact result beyond 53 bits of precision (for example on a
17-significant-digit literal); the routing theorems below therefore use
this value only parametrically or at concrete inputs inside the
double-exact range, and no universal statement about the rounded
magnitude is made, since that is decided by double rounding. -/
def moneyValue (ip fp : List Char) (mult : ℕ) : ℕ :=
  roundHalfUp ((digitsToNat ip * 10 ^ fp.length + digitsToNat fp) * mult) (10 ^ fp.length)

/-- Match of `(\d+(\.\d+)?)(\s*)?(억|천만원|백만원|만원|만|원)` anchored at the
start of `s`.  The greedy `\d+` always keeps the full digit run (a shorter
run leaves a digit in front of the unit, which can never match), the
optional fraction is preferred when it allows a unit to follow, and the
optional `\s*` skips the whitespace run before the unit. -/
def moneyMatchAt (s : List Char) : Option ℕ :=
  match s with
  | [] => none
  | c :: _ =>
    if c.isDigit then
      let ip := s.takeWhile Char.isDigit
      let s1 := s.dropWhile Char.isDigit
      let withFrac : Option ℕ :=
        match s1 with
        | '.' :: ds =>
          let fp := ds.takeWhile Char.isDigit
          if fp = [] then none
          else
            match moneyUnit ((ds.dropWhile Char.isDigit).dropWhile isJsWs) with
            | some mult => some (moneyValue ip fp mult)
            | none => none
        | _ => none
      match withFrac with
      | some v => some v
      | none =>
        match moneyUnit (s1.dropWhile isJsWs) with
        | some mult => some (moneyValue ip [] mult)
        | none => none
    else none

/-- Leftmost scan of the money regex: try the anchored match at every
suffix, left to right. -/
def pkmScan : List Char → Option ℕ
  | [] => none
  | c :: rest =>
    match moneyMatchAt (c :: rest) with
    | some v => some v
    | none => pkmScan rest

/-- Model of `parseKoreanMoney`: strip commas, trim, then take the first
match of the money regex.  `Number` on a matched decimal is never `NaN`,
so the `Number.isNaN` guard of the source never fires; there is no
finiteness guard in this function (an overflowing literal yields
`Infinity`, still a number), so the found/absent support of the source is
matched exactly, while the magnitude carried here is the exact rational
rounding rather than the program's double. -/
def parseKoreanMoney (text : List Char) : Option ℕ :=
  pkmScan (jsTrim (removeCommas text))

/- ----------------------------------------------------------------- -/
/- Duration parser: `parseMonths` of route.ts                         -/
/- ----------------------------------------------------------------- -/

/-- Unit alternation `(개월|달|month|months)` with flag `i`, at a fixed
position. -/
def monthUnitAt (s : List Char) : Bool :=
  ciStarts (cs "개월") s || ciStarts (cs "달") s ||
  ciStarts (cs "month") s || ciStarts (cs "months") s

/-- Match of `(\d+)\s*(개월|달|month|months)` (flag `i`) anchored at the start
of `s`: a digit run, a whitespace run, then a duration unit. -/
def monthMatchAt (s : List Char) : Option ℕ :=
  match s with
  | [] => none
  | c :: _ =>
    if c.isDigit then
      if monthUnitAt ((s.dropWhile Char.isDigit).dropWhile isJsWs) then
        some (digitsToNat (s.takeWhile Char.isDigit))
      else none
    else none

/-- Leftmost scan of the duration regex. -/
def pmScan : List Char → Option ℕ
  | [] => none
  | c :: rest =>
    match monthMatchAt (c :: rest) with
    | some n => some n
    | none => pmScan rest

/-- Powers of ten by iterated multiplication, kept separate from `10 ^ ·`
so that concrete instances evaluate step by step (`pow10_eq` below proves
the two agree). -/
def pow10 : ℕ → ℕ
  | 0 => 1
  | k + 1 => 10 * pow10 k

/-- Overflow threshold of `Number` on a nonnegative decimal: the
conversion is the correctly rounded double, which is finite exactly when
the value is below the midpoint `2^1024 - 2^970` between the largest
finite double `(2^53 - 1) * 2^971` and `2^1024` (at the midpoint,
round-half-to-even selects `2^1024`, i.e. `Infinity`).  Written with
shifts, which evaluate directly; `jsMaxFiniteBound_eq` below restates it
with powers. -/
def jsMaxFiniteBound : ℕ := 1 <<< 1024 - 1 <<< 970

/-- Model of `parseMonths`: first match of the duration regex, guarded by
the source's `Number.isFinite(n) ? n : undefined` — a digit run whose
value reaches the double overflow threshold converts to `Infinity` and
the parser returns nothing.  Within the finite range the magnitude is
kept exact (the program's double agrees below `2^53`; no theorem consults
larger magnitudes). -/
def parseMonths (text : List Char) : Option ℕ :=
  match pmScan text with
  | some n => if n < jsMaxFiniteBound then some n else none
  | none => none

/- ----------------------------------------------------------------- -/
/- Keyword patterns and the tri-state detector                        -/
/- ----------------------------------------------------------------- -/

/-- One atom of the small regex fragment used by the keyword patterns of
route.ts: a literal, `\s*`, the class `[0-9]`, or an optional character. -/
inductive RAtom : Type where
  | lit (p : List Char)
  | wsStar
  | digit
  | opt (c : Char)
deriving DecidableEq, Repr

/-- Fuelled matcher for a sequence of atoms anchored at the start of `s`,
with the backtracking of `\s*` and `?` made explicit.  The fuel strictly
exceeds pattern length plus input length at every call, so the `0` case is
never reached from `matchSeq`. -/
def matchSeqF : ℕ → List RAtom → List Char → Bool
  | 0, _, _ => false
  | _ + 1, [], _ => true
  | f + 1, .lit p :: ps, s => p.isPrefixOf s && matchSeqF f ps (s.drop p.length)
  | f + 1, .digit :: ps, s =>
    match s with
    | c :: t => c.isDigit && matchSeqF f ps t
    | [] => false
  | f + 1, .opt c :: ps, s =>
    (match s with
     | d :: t => c == d && matchSeqF f ps t
     | [] => false) || matchSeqF f ps s
  | f + 1, .wsStar :: ps, s =>
    matchSeqF f ps s ||
    (match s with
     | c :: t => isJsWs c && matchSeqF f (.wsStar :: ps) t
     | [] => false)

/-- Anchored match of an atom sequence. -/
def matchSeq (ps : List RAtom) (s : List Char) : Bool :=
  matchSeqF (ps.length + s.length + 1) ps s

/-- Model of `RegExp.prototype.test` for an alternation of atom sequences:
some alternative matches at some position of `s`. -/
def reTest (pats : List (List RAtom)) : List Char → Bool
  | [] => pats.any (fun p => matchSeq p [])
  | c :: t => pats.any (fun p => matchSeq p (c :: t)) || reTest pats t

/-- Literal pattern atom from a string. -/
def lit (s : String) : RAtom := .lit s.toList

/-- Hedging markers: `/(잘\s*모르|대충|아마|그냥|가능할?지|모르겠|애매)/`. -/
def pHedge : List (List RAtom) :=
  [[lit "잘", .wsStar, lit "모르"], [lit "대충"], [lit "아마"], [lit "그냥"],
   [lit "가능", .opt '할', lit "지"], [lit "모르겠"], [lit "애매"]]

/-- Periodicity markers: `/(매달|월|한달|매월)/`. -/
def pPeriodic : List (List RAtom) := [[lit "매달"], [lit "월"], [lit "한달"], [lit "매월"]]

/-- Income markers: `/(소득|월급|연봉)/`. -/
def pIncome : List (List RAtom) := [[lit "소득"], [lit "월급"], [lit "연봉"]]

/-- Product-type family tests `/적금/`, `/예금/`, `/대출/`. -/
def pSavings : List (List RAtom) := [[lit "적금"]]

/-- Deposit family test. -/
def pDeposit : List (List RAtom) := [[lit "예금"]]

/-- Loan family test. -/
def pLoan : List (List RAtom) := [[lit "대출"]]

/-- Affirmative salary-transfer keywords. -/
def pSalaryYes : List (List RAtom) :=
  [[lit "급여이체"], [lit "월급", .wsStar, lit "이체"], [lit "급여", .wsStar, lit "받"]]

/-- Negative salary-transfer keywords. -/
def pSalaryNo : List (List RAtom) :=
  [[lit "급여이체", .wsStar, lit "불가"], [lit "월급", .wsStar, lit "안받"],
   [lit "급여", .wsStar, lit "없"]]

/-- Affirmative automatic-transfer keywords. -/
def pAutoYes : List (List RAtom) := [[lit "자동이체"], [lit "정기이체"], [lit "오토이체"]]

/-- Negative automatic-transfer keywords. -/
def pAutoNo : List (List RAtom) :=
  [[lit "자동이체", .wsStar, lit "싫"], [lit "자동이체", .wsStar, lit "불가"],
   [lit "정기이체", .wsStar, lit "안"]]

/-- Affirmative card-spend keywords. -/
def pCardYes : List (List RAtom) :=
  [[lit "카드", .wsStar, lit "실적"], [lit "카드", .wsStar, lit "사용"],
   [lit "월", .wsStar, lit "카드"]]

/-- Negative card-spend keywords. -/
def pCardNo : List (List RAtom) :=
  [[lit "카드", .wsStar, lit "안써"], [lit "카드", .wsStar, lit "싫"],
   [lit "실적", .wsStar, lit "못"]]

/-- Affirmative primary-bank keywords. -/
def pPrimaryYes : List (List RAtom) :=
  [[lit "주거래"], [lit "메인", .wsStar, lit "은행"],
   [lit "주로", .wsStar, lit "쓰는", .wsStar, lit "은행"]]

/-- Negative primary-bank keywords. -/
def pPrimaryNo : List (List RAtom) :=
  [[lit "주거래", .wsStar, lit "없"], [lit "메인", .wsStar, lit "없"]]

/-- Affirmative non-face-to-face keywords. -/
def pNonFaceYes : List (List RAtom) :=
  [[lit "비대면"], [lit "모바일", .wsStar, lit "가입"], [lit "앱으로"]]

/-- Negative non-face-to-face keywords. -/
def pNonFaceNo : List (List RAtom) := [[lit "대면"], [lit "영업점"], [lit "방문"]]

/-- Affirmative youth keywords, including `만\s*3[0-9]`. -/
def pYouthYes : List (List RAtom) :=
  [[lit "청년"], [lit "만", .wsStar, lit "3", .digit], [lit "20대"], [lit "사회초년"]]

/-- Negative youth keywords. -/
def pYouthNo : List (List RAtom) :=
  [[lit "청년", .wsStar, lit "아님"], [lit "40대"], [lit "50대"]]

/-- Tri-state answer type of route.ts. -/
inductive YesNoUnknown : Type where
  | yes
  | no
  | unknown
deriving DecidableEq, Repr

/-- Model of `detectYesNoUnknown`: affirmative test first, then negative,
else `unknown`. -/
def detectYesNoUnknown (text : List Char) (yesWords noWords : List Char → Bool) :
    YesNoUnknown :=
  if yesWords text then .yes
  else if noWords text then .no
  else .unknown

/- ----------------------------------------------------------------- -/
/- The extractor record types and `ruleBasedExtract`                  -/
/- ----------------------------------------------------------------- -/

/-- The `slots` object of `OutputJSON`: optional numeric fields. -/
structure Slots : Type where
  monthly_amount : Option ℕ := none
  term_months : Option ℕ := none
  lump_sum : Option ℕ := none
  income_monthly : Option ℕ := none
  desired_amount : Option ℕ := none
deriving DecidableEq, Repr

/-- The `eligibility` object of `OutputJSON`. -/
structure Eligibility : Type where
  salary_transfer : YesNoUnknown
  auto_transfer : YesNoUnknown
  card_spend : YesNoUnknown
  primary_bank : YesNoUnknown
  non_face : YesNoUnknown
  youth : YesNoUnknown
deriving DecidableEq, Repr

/-- The `meta` object of `OutputJSON`. -/
structure MetaInfo : Type where
  user_uncertain : Bool
deriving DecidableEq, Repr

/-- The `OutputJSON` record returned by the extractor. -/
structure OutputJSON : Type where
  slots : Slots
  eligibility : Eligibility
  meta : MetaInfo
deriving DecidableEq, Repr

/-- The `InputJSON` request record. -/
structure InputJSON : Type where
  product_type : List Char
  last_questions : List (List Char)
  user_message : List Char
deriving DecidableEq, Repr

/-- Model of `baseOutput`. -/
def baseOutput : OutputJSON where
  slots := {}
  eligibility :=
    { salary_transfer := .unknown
      auto_transfer := .unknown
      card_spend := .unknown
      primary_bank := .unknown
      non_face := .unknown
      youth := .unknown }
  meta := { user_uncertain := false }

/-- Model of `ruleBasedExtract`.  The message is trimmed once up front;
`if (months)` keeps the JavaScript truthiness test, so a parsed duration
of `0` is dropped; the amount, when present, is routed by product type and
co-occurring keywords exactly as in the source `if` chain. -/
def ruleBasedExtract (input : InputJSON) : OutputJSON :=
  let msg := jsTrim input.user_message
  let uncertain := reTest pHedge msg
  let months := parseMonths msg
  let termSlot : Option ℕ :=
    match months with
    | some 0 => none
    | x => x
  let money := parseKoreanMoney msg
  let slots0 : Slots := { term_months := termSlot }
  let slots :=
    match money with
    | none => slots0
    | some m =>
      if reTest pSavings input.product_type then
        if reTest pPeriodic msg then { slots0 with monthly_amount := some m }
        else { slots0 with lump_sum := some m }
      else if reTest pDeposit input.product_type then
        { slots0 with lump_sum := some m }
      else if reTest pLoan input.product_type then
        if reTest pIncome msg then { slots0 with income_monthly := some m }
        else { slots0 with desired_amount := some m }
      else
        { slots0 with lump_sum := some m }
  { slots := slots
    eligibility :=
      { salary_transfer := detectYesNoUnknown msg (reTest pSalaryYes) (reTest pSalaryNo)
        auto_transfer := detectYesNoUnknown msg (reTest pAutoYes) (reTest pAutoNo)
        card_spend := detectYesNoUnknown msg (reTest pCardYes) (reTest pCardNo)
        primary_bank := detectYesNoUnknown msg (reTest pPrimaryYes) (reTest pPrimaryNo)
        non_face := detectYesNoUnknown msg (reTest pNonFaceYes) (reTest pNonFaceNo)
        youth := detectYesNoUnknown msg (reTest pYouthYes) (reTest pYouthNo) }
    meta := { user_uncertain := uncertain } }

/- ----------------------------------------------------------------- -/
/- JSON values and a model of `JSON.parse`                            -/
/- ----------------------------------------------------------------- -/

/-- Decoded JSON tree.  Numbers keep their raw lexeme: the client code only
ever asks for `typeof` and truthiness of decoded numbers, never their
magnitude. -/
inductive JsonValue : Type where
  | null
  | bool (b : Bool)
  | num (lex : List Char)
  | str (s : List Char)
  | arr (elems : List JsonValue)
  | obj (fields : List (List Char × JsonValue))
deriving Repr

/-- JSON insignificant whitespace (space, tab, line feed, carriage return). -/
def isJsonWs (c : Char) : Bool :=
  c = ' ' || c = '\t' || c = '\n' || c = '\r'

/-- Skip JSON whitespace. -/
def skipWs (s : List Char) : List Char := s.dropWhile isJsonWs

/-- Hexadecimal digit value, for `\u` escapes, by code point: digits are
code points 48-57, lowercase letters 97-102, uppercase 65-70. -/
def hexVal (c : Char) : Option ℕ :=
  let n := c.toNat
  if 48 ≤ n && n ≤ 57 then some (n - 48)
  else if 97 ≤ n && n ≤ 102 then some (n - 87)
  else if 65 ≤ n && n ≤ 70 then some (n - 55)
  else none

/-- Single-character JSON string escapes. -/
def escChar (c : Char) : Option Char :=
  if c = '"' then some '"'
  else if c = '\\' then some '\\'
  else if c = '/' then some '/'
  else if c = 'b' then some '\u0008'
  else if c = 'f' then some '\u000c'
  else if c = 'n' then some '\n'
  else if c = 'r' then some '\r'
  else if c = 't' then some '\t'
  else none

/-- Parse the remainder of a JSON string after the opening quote, returning
the decoded characters and the input past the closing quote.  Raw control
characters are rejected; `\u` escapes decode to the code unit (surrogate
pairing of the JavaScript string model is not reconstructed — no claim
depends on astral characters). -/
def parseStringRest : List Char → Option (List Char × List Char)
  | [] => none
  | '"' :: r => some ([], r)
  | '\\' :: 'u' :: h1 :: h2 :: h3 :: h4 :: r =>
    (match hexVal h1, hexVal h2, hexVal h3, hexVal h4 with
     | some a, some b, some c, some d =>
       (parseStringRest r).map (fun q => (Char.ofNat (4096 * a + 256 * b + 16 * c + d) :: q.1, q.2))
     | _, _, _, _ => none)
  | '\\' :: e :: r =>
    (match escChar e with
     | some c => (parseStringRest r).map (fun q => (c :: q.1, q.2))
     | none => none)
  | c :: r =>
    if c.toNat < 32 then none
    else (parseStringRest r).map (fun q => (c :: q.1, q.2))

/-- Lex the integer part `(0|[1-9][0-9]*)` of a JSON number. -/
def lexInt : List Char → Option (List Char × List Char)
  | '0' :: r => some (['0'], r)
  | c :: r =>
    if c.isDigit then some (c :: r.takeWhile Char.isDigit, r.dropWhile Char.isDigit)
    else none
  | [] => none

/-- Lex a JSON number starting at `s`, returning its lexeme and the rest.
A dangling `.` or exponent marker is left unconsumed; the enclosing
grammar then fails on it exactly as `JSON.parse` does. -/
def lexNumber (s : List Char) : Option (List Char × List Char) :=
  let sign : List Char × List Char :=
    match s with
    | '-' :: r => (['-'], r)
    | _ => ([], s)
  match lexInt sign.2 with
  | none => none
  | some (ip, s2) =>
    let fr : List Char × List Char :=
      match s2 with
      | '.' :: r =>
        let ds := r.takeWhile Char.isDigit
        if ds = [] then ([], s2) else ('.' :: ds, r.dropWhile Char.isDigit)
      | _ => ([], s2)
    let ex : List Char × List Char :=
      match fr.2 with
      | e :: r =>
        if e = 'e' || e = 'E' then
          let sg : List Char × List Char :=
            match r with
            | c :: rr => if c = '+' || c = '-' then ([c], rr) else ([], r)
            | [] => ([], r)
          let ds := sg.2.takeWhile Char.isDigit
          if ds = [] then ([], fr.2) else (e :: (sg.1 ++ ds), sg.2.dropWhile Char.isDigit)
        else ([], fr.2)
      | [] => ([], fr.2)
    some (sign.1 ++ ip ++ fr.1 ++ ex.1, ex.2)

/-- State of the recursive-descent JSON parser: about to read a value, or
inside an object / array member list with the members read so far. -/
inductive PMode : Type where
  | value
  | members (acc : List (List Char × JsonValue))
  | elems (acc : List JsonValue)

/-- Fuelled recursive-descent parser for JSON.  Every recursive call either
consumes input or switches from the element loop to a value, so call depth
is at most twice the input length and the fuel passed by `jsonParse` never
runs out; structural recursion on the fuel keeps the function reducible. -/
def parseJ : ℕ → PMode → List Char → Option (JsonValue × List Char)
  | 0, _, _ => none
  | f + 1, .value, s =>
    match s with
    | [] => none
    | c :: r =>
      if c = '{' then
        match skipWs r with
        | '}' :: r2 => some (.obj [], r2)
        | s1 => parseJ f (.members []) s1
      else if c = '[' then
        match skipWs r with
        | ']' :: r2 => some (.arr [], r2)
        | s1 => parseJ f (.elems []) s1
      else if c = '"' then
        (parseStringRest r).map (fun q => (.str q.1, q.2))
      else if (cs "true").isPrefixOf s then some (.bool true, s.drop 4)
      else if (cs "false").isPrefixOf s then some (.bool false, s.drop 5)
      else if (cs "null").isPrefixOf s then some (.null, s.drop 4)
      else
        (lexNumber s).map (fun q => (.num q.1, q.2))
  | f + 1, .members acc, s =>
    match s with
    | '"' :: r =>
      (match parseStringRest r with
       | none => none
       | some (key, s1) =>
         match skipWs s1 with
         | ':' :: s2 =>
           (match parseJ f .value (skipWs s2) with
            | none => none
            | some (v, s3) =>
              match skipWs s3 with
              | ',' :: s4 => parseJ f (.members (acc ++ [(key, v)])) (skipWs s4)
              | '}' :: s4 => some (.obj (acc ++ [(key, v)]), s4)
              | _ => none)
         | _ => none)
    | _ => none
  | f + 1, .elems acc, s =>
    match parseJ f .value s with
    | none => none
    | some (v, s1) =>
      match skipWs s1 with
      | ',' :: s2 => parseJ f (.elems (acc ++ [v])) (skipWs s2)
      | ']' :: s2 => some (.arr (acc ++ [v]), s2)
      | _ => none

/-- Model of `JSON.parse` wrapped by `safeJsonParse`: `none` both when the
text is not valid JSON and (indistinguishably for the caller) when it is
the JSON text `null` — but top-level `null` is kept as a value here and
is falsy wherever the client tests it, which matches the source. -/
def jsonParse (s : List Char) : Option JsonValue :=
  match parseJ (2 * s.length + 2) .value (skipWs s) with
  | some (v, rest) => if skipWs rest = [] then some v else none
  | none => none

/-- Decompose a JSON number lexeme produced by `lexNumber` into its
mantissa digit string (integer and fractional digits concatenated, sign
dropped) and its decimal exponent, so that up to sign the exact value of
the literal is `digits * 10 ^ exponent`. -/
def numLexMant (lex : List Char) : List Char × ℤ :=
  let l1 := match lex with
    | '-' :: t => t
    | _ => lex
  let ip := l1.takeWhile Char.isDigit
  let r1 := l1.dropWhile Char.isDigit
  let fp : List Char × List Char :=
    match r1 with
    | '.' :: t => (t.takeWhile Char.isDigit, t.dropWhile Char.isDigit)
    | _ => ([], r1)
  let ex : ℤ :=
    match fp.2 with
    | _ :: t =>
      match t with
      | '-' :: u => -(digitsToNat (u.takeWhile Char.isDigit) : ℤ)
      | '+' :: u => (digitsToNat (u.takeWhile Char.isDigit) : ℤ)
      | _ => (digitsToNat (t.takeWhile Char.isDigit) : ℤ)
    | [] => 0
  (ip ++ fp.1, ex - fp.1.length)

/-- Whether the double decoded from a JSON number lexeme is zero, hence
falsy: with exact magnitude `M * 10 ^ D`, the correctly rounded double is
`±0` exactly when the magnitude is at most `2^(-1075)`, half the smallest
subnormal (at the midpoint, round-half-to-even selects the even mantissa
`0`; `1e-324` underflows this way while `5e-324` does not).  For `D < 0`
the condition is `M * 2^1075 ≤ 10^k` with `k = -D`, written below with a
shift and `pow10` so concrete instances evaluate; when `k` is at least
the mantissa digit count plus `324` it holds outright (`M < 10^digits`
and `2^1075 < 10^324`), which keeps the test computable for huge
exponents. -/
def numIsZero (lex : List Char) : Bool :=
  let p := numLexMant lex
  let M := digitsToNat p.1
  if M = 0 then true
  else if 0 ≤ p.2 then false
  else
    let k := (-p.2).toNat
    if p.1.length + 324 ≤ k then true
    else decide (M <<< 1075 ≤ pow10 k)

/-- Truthiness of a decoded value under JavaScript coercion. -/
def jsTruthy : JsonValue → Bool
  | .null => false
  | .bool b => b
  | .num lex => !numIsZero lex
  | .str s => !s.isEmpty
  | .arr _ => true
  | .obj _ => true

/-- Whether `typeof x === "object"` holds for the decoded value (`null`,
arrays and objects). -/
def isObjType : JsonValue → Bool
  | .null => true
  | .arr _ => true
  | .obj _ => true
  | _ => false

/-- Field lookup on a decoded object, later duplicate keys overwriting
earlier ones as JavaScript object literals do. -/
def getField (fields : List (List Char × JsonValue)) (k : List Char) : Option JsonValue :=
  fields.foldl (fun acc kv => if kv.1 = k then some kv.2 else acc) none

/-- Property access `x.k` on a decoded value: only objects carry the named
properties the client reads. -/
def getProp : JsonValue → List Char → Option JsonValue
  | .obj fs, k => getField fs k
  | _, _ => none

/-- Model of `isProductResult`: `x && typeof x === "object" &&
Array.isArray(x.products)`; the argument is the `safeJsonParse` result,
`none` standing for the JavaScript `null` returned on decode failure. -/
def isProductResult (x : Option JsonValue) : Bool :=
  match x with
  | some v =>
    jsTruthy v && isObjType v &&
    (match getProp v (cs "products") with
     | some (.arr _) => true
     | _ => false)
  | none => false

/-- Model of `isSlotState`: `x && typeof x === "object" && x.slots &&
x.eligibility && x.meta && typeof x.meta.user_uncertain === "boolean"`. -/
def isSlotState (x : Option JsonValue) : Bool :=
  match x with
  | some v =>
    jsTruthy v && isObjType v &&
    (match getProp v (cs "slots") with
     | some w => jsTruthy w
     | none => false) &&
    (match getProp v (cs "eligibility") with
     | some w => jsTruthy w
     | none => false) &&
    (match getProp v (cs "meta") with
     | some w =>
       jsTruthy w &&
       (match getProp w (cs "user_uncertain") with
        | some (.bool _) => true
        | _ => false)
     | none => false)
  | none => false

/- ----------------------------------------------------------------- -/
/- The content segmenter `splitTextAndJsonBlocks`                     -/
/- ----------------------------------------------------------------- -/

/-- One output block of the segmenter, tagged `text` or `json` as in the
source. -/
inductive Block : Type where
  | text (s : List Char)
  | json (s : List Char)
deriving DecidableEq, Repr

/-- The fence opener `"```json"`, matched case-insensitively (regex flag
`i`). -/
def openTok : List Char := cs "```json"

/-- The fence closer `"```"`. -/
def closeTok : List Char := cs "```"

/-- Leftmost occurrence of pattern `p` (case-insensitive) in `s`: the text
before the occurrence and the text after it, or `none` when `p` does not
occur. -/
def splitAtFirst (p : List Char) : List Char → Option (List Char × List Char)
  | [] => if ciStarts p [] then some ([], List.drop p.length []) else none
  | c :: rest =>
    if ciStarts p (c :: rest) then some ([], List.drop p.length (c :: rest))
    else
      match splitAtFirst p rest with
      | some q => some (c :: q.1, q.2)
      | none => none

/-- Fuelled model of the `while ((match = regex.exec(content)))` loop over
`/```json\s*([\s\S]*?)\s*```/gi`: find the next opener, then the nearest
closer; the lazy inner group together with the flanking greedy `\s*`
captures the fenced text with both ends trimmed.  Text between matches is
emitted only when non-blank; when no further full fence matches, the whole
remaining text is the final segment, emitted only when non-blank.  The
fuel strictly exceeds the remaining length at every call, so the `0` case
is never reached from `scanBlocks`. -/
def scanBlocksF : ℕ → List Char → List Block
  | 0, _ => []
  | f + 1, s =>
    match splitAtFirst openTok s with
    | none => if jsTrim s = [] then [] else [.text s]
    | some (before, rest) =>
      match splitAtFirst closeTok rest with
      | none => if jsTrim s = [] then [] else [.text s]
      | some (mid, rest2) =>
        (if jsTrim before = [] then [] else [.text before]) ++
          Block.json (jsTrim mid) :: scanBlocksF f rest2

/-- The fence-scanning loop of `splitTextAndJsonBlocks`. -/
def scanBlocks (s : List Char) : List Block := scanBlocksF (s.length + 1) s

/-- Model of `splitTextAndJsonBlocks`: a whole-message payload that decodes
to a truthy `object` short-circuits to a single `json` block; otherwise the
fence scan runs, and an empty scan falls back to one `text` block holding
the entire message. -/
def splitTextAndJsonBlocks (content : List Char) : List Block :=
  let trimmed := jsTrim content
  let whole := jsonParse trimmed
  if (match whole with
      | some v => jsTruthy v && isObjType v
      | none => false) then
    [Block.json trimmed]
  else
    let blocks := scanBlocks content
    if blocks = [] then [Block.text content] else blocks

/-- Rendering category a `json` block lands in inside `AssistantBubble`:
a product carousel, a slot carousel, or the raw collapsible view. -/
inductive Classified : Type where
  | productResult (v : JsonValue)
  | slotState (v : JsonValue)
  | rawJson (raw : List Char)
deriving Repr

/-- Model of the `json`-block branch of `AssistantBubble`: trim the block
value, decode it, and dispatch on `isProductResult` then `isSlotState`,
falling back to the raw JSON view. -/
def classify (value : List Char) : Classified :=
  let raw := jsTrim value
  match jsonParse raw with
  | some v =>
    if isProductResult (some v) then .productResult v
    else if isSlotState (some v) then .slotState v
    else .rawJson raw
  | none => .rawJson raw

/-- Concatenation used by the round-trip claims: block contents in order,
with the fence markers reinserted around each `json` block. -/
def joinBlocks : List Block → List Char
  | [] => []
  | .text s :: r => s ++ joinBlocks r
  | .json s :: r => openTok ++ s ++ closeTok ++ joinBlocks r

/- ----------------------------------------------------------------- -/
/- Message compositions for the round-trip property                   -/
/- ----------------------------------------------------------------- -/

/-- The backtick character, written by code point. -/
def btChar : Char := Char.ofNat 96

/-- A message composed of a leading text segment and a list of fenced
structured spans, each followed by a text segment. -/
def renderMsg (t0 : List Char) : List (List Char × List Char) → List Char
  | [] => t0
  | (j, t) :: r => t0 ++ openTok ++ j ++ closeTok ++ renderMsg t r

/-- Well-formedness of a text segment for the round-trip: it is either
empty or non-blank (blank-only segments are consumed by the scanner), and
it contains no fence opener. -/
def wfTextB (s : List Char) : Bool :=
  (decide (s = []) || decide (jsTrim s ≠ [])) &&
  decide (splitAtFirst openTok s = none)

/-- Well-formedness of a fenced span content for the round-trip: no
whitespace padding against the fence markers (such padding is consumed by
the scanner), no embedded fence closer, and no trailing backtick (which
would merge with the closer). -/
def wfInnerB (j : List Char) : Bool :=
  decide (jsTrim j = j) && decide (splitAtFirst closeTok j = none) &&
  (match j.getLast? with
   | some c => !ciEq btChar c
   | none => true)

/-- Well-formedness of a whole composition. -/
def wfFencesB : List Char → List (List Char × List Char) → Bool
  | t0, [] => wfTextB t0
  | t0, (j, t) :: r => wfTextB t0 && wfInnerB j && wfFencesB t r

/-- Guard that the whole trimmed message does not itself decode to a truthy
`object`, which would short-circuit the segmenter. -/
def wholeGuardB (m : List Char) : Bool :=
  match jsonParse (jsTrim m) with
  | some v => !(jsTruthy v && isObjType v)
  | none => true

/- ----------------------------------------------------------------- -/
/- Theorems                                                           -/
/- ----------------------------------------------------------------- -/

/-- C8: for every triple of a text and two keyword patterns, the tri-state
detector returns `yes` whenever the affirmative pattern matches — even if
the negative pattern also matches — returns `no` when only the negative
pattern matches, and `unknown` when neither matches. -/
theorem C8_detect_precedence (text : List Char) (yesWords noWords : List Char → Bool) :
    (yesWords text = true → detectYesNoUnknown text yesWords noWords = .yes) ∧
    (yesWords text = false → noWords text = true →
      detectYesNoUnknown text yesWords noWords = .no) ∧
    (yesWords text = false → noWords text = false →
      detectYesNoUnknown text yesWords noWords = .unknown) :=
  ⟨fun h => by simp [detectYesNoUnknown, h],
   fun h1 h2 => by simp [detectYesNoUnknown, h1, h2],
   fun h1 h2 => by simp [detectYesNoUnknown, h1, h2]⟩

/-- Witness for C8 at the non-face-to-face patterns on `비대면`, where the
negative pattern (`대면`) matches simultaneously and the affirmative still
wins. -/
theorem C8_witness :
    reTest pNonFaceYes (cs "비대면") = true ∧
    reTest pNonFaceNo (cs "비대면") = true ∧
    detectYesNoUnknown (cs "비대면") (reTest pNonFaceYes) (reTest pNonFaceNo) = .yes :=
  ⟨by decide, by decide,
   (C8_detect_precedence (cs "비대면") (reTest pNonFaceYes) (reTest pNonFaceNo)).1 (by decide)⟩

/-- C4: the claim requires `term_months` to be set for every parsed
duration value including `0`; the code guards the assignment with the
JavaScript truthiness test `if (months)`, so a parsed duration of `0` is
dropped while the spec invariant demands zero be distinguishable from
unset.  At the failing input `0개월` the parser finds `0` but the returned
record leaves `term_months` absent; a nonzero duration is kept. -/
theorem C4_zero_months_dropped :
    parseMonths (jsTrim (cs "0개월")) = some 0 ∧
    (ruleBasedExtract ⟨cs "예금", [], cs "0개월"⟩).slots.term_months = none ∧
    (ruleBasedExtract ⟨cs "예금", [], cs "3개월"⟩).slots.term_months = some 3 :=
  ⟨by decide, by decide, by decide⟩

/-- Counterexample for C1 as stated: a well-formed fence whose content is
padded with newlines loses the padding under segment-then-reinsert, so the
round-trip is not the identity on all fenced messages. -/
theorem C1_counterexample :
    joinBlocks (splitTextAndJsonBlocks (cs "```json\n\x7b\x7d\n```")) ≠
      cs "```json\n\x7b\x7d\n```" := by decide

/-- Counterexample for C2 as stated: a whitespace-only message produces no
fence match and no non-blank segment, and the final fallback then returns
the entire blank message as a single `text` block. -/
theorem C2_counterexample :
    Block.text (cs " ") ∈ splitTextAndJsonBlocks (cs " ") ∧ jsTrim (cs " ") = [] :=
  ⟨by decide, by decide⟩

/-- Counterexample for C3 as stated: an utterance with no amount token and
no duration token can still carry eligibility keywords, so the eligibility
fields are not all `unknown`. -/
theorem C3_counterexample :
    parseKoreanMoney (jsTrim (cs "자동이체")) = none ∧
    parseMonths (jsTrim (cs "자동이체")) = none ∧
    (ruleBasedExtract ⟨[], [], cs "자동이체"⟩).eligibility.auto_transfer = .yes :=
  ⟨by decide, by decide, by decide⟩

/-- Every tri-state value lies in the closed set. -/
theorem YesNoUnknown.mem_closed (y : YesNoUnknown) :
    y = .yes ∨ y = .no ∨ y = .unknown := by cases y <;> simp

/-- C3 amended: for every utterance in which the amount parser and the
duration parser find nothing, all five numeric slot fields of the returned
record are absent; each eligibility field whose affirmative and negative
keyword patterns both fail to match is `unknown` (eligibility fields whose
keywords do occur are set from them independently of the amount and
duration tokens, which is what the original claim missed). -/
theorem C3_no_tokens_amended (pt : List Char) (qs : List (List Char)) (um : List Char)
    (hm : parseKoreanMoney (jsTrim um) = none)
    (hn : parseMonths (jsTrim um) = none) :
    (ruleBasedExtract ⟨pt, qs, um⟩).slots = {} ∧
    ((reTest pSalaryYes (jsTrim um) = false → reTest pSalaryNo (jsTrim um) = false →
      (ruleBasedExtract ⟨pt, qs, um⟩).eligibility.salary_transfer = .unknown) ∧
     (reTest pAutoYes (jsTrim um) = false → reTest pAutoNo (jsTrim um) = false →
      (ruleBasedExtract ⟨pt, qs, um⟩).eligibility.auto_transfer = .unknown) ∧
     (reTest pCardYes (jsTrim um) = false → reTest pCardNo (jsTrim um) = false →
      (ruleBasedExtract ⟨pt, qs, um⟩).eligibility.card_spend = .unknown) ∧
     (reTest pPrimaryYes (jsTrim um) = false → reTest pPrimaryNo (jsTrim um) = false →
      (ruleBasedExtract ⟨pt, qs, um⟩).eligibility.primary_bank = .unknown) ∧
     (reTest pNonFaceYes (jsTrim um) = false → reTest pNonFaceNo (jsTrim um) = false →
      (ruleBasedExtract ⟨pt, qs, um⟩).eligibility.non_face = .unknown) ∧
     (reTest pYouthYes (jsTrim um) = false → reTest pYouthNo (jsTrim um) = false →
      (ruleBasedExtract ⟨pt, qs, um⟩).eligibility.youth = .unknown)) := by
  constructor
  · simp [ruleBasedExtract, hm, hn]
  · refine ⟨fun h1 h2 => ?_, fun h1 h2 => ?_, fun h1 h2 => ?_, fun h1 h2 => ?_,
      fun h1 h2 => ?_, fun h1 h2 => ?_⟩ <;>
    simp [ruleBasedExtract, detectYesNoUnknown, h1, h2]

/-- Witness for C3 amended at the empty utterance: the baseline record. -/
theorem C3_witness :
    (ruleBasedExtract ⟨[], [], []⟩).slots = {} ∧
    (ruleBasedExtract ⟨[], [], []⟩).eligibility.salary_transfer = .unknown := by
  have h := C3_no_tokens_amended [] [] [] (by decide) (by decide)
  exact ⟨h.1, h.2.1 (by decide) (by decide)⟩

/-- C9: for every input, the returned record carries all six eligibility
fields with values from the closed tri-state set; the eligibility component
is computed from the utterance alone, independent of product type and
prior questions; and each field defaults to `unknown` when neither of its
keyword patterns matches. -/
theorem C9_eligibility_invariant (pt : List Char) (qs : List (List Char)) (um : List Char) :
    (((ruleBasedExtract ⟨pt, qs, um⟩).eligibility.salary_transfer = .yes ∨
      (ruleBasedExtract ⟨pt, qs, um⟩).eligibility.salary_transfer = .no ∨
      (ruleBasedExtract ⟨pt, qs, um⟩).eligibility.salary_transfer = .unknown) ∧
     ((ruleBasedExtract ⟨pt, qs, um⟩).eligibility.auto_transfer = .yes ∨
      (ruleBasedExtract ⟨pt, qs, um⟩).eligibility.auto_transfer = .no ∨
      (ruleBasedExtract ⟨pt, qs, um⟩).eligibility.auto_transfer = .unknown) ∧
     ((ruleBasedExtract ⟨pt, qs, um⟩).eligibility.card_spend = .yes ∨
      (ruleBasedExtract ⟨pt, qs, um⟩).eligibility.card_spend = .no ∨
      (ruleBasedExtract ⟨pt, qs, um⟩).eligibility.card_spend = .unknown) ∧
     ((ruleBasedExtract ⟨pt, qs, um⟩).eligibility.primary_bank = .yes ∨
      (ruleBasedExtract ⟨pt, qs, um⟩).eligibility.primary_bank = .no ∨
      (ruleBasedExtract ⟨pt, qs, um⟩).eligibility.primary_bank = .unknown) ∧
     ((ruleBasedExtract ⟨pt, qs, um⟩).eligibility.non_face = .yes ∨
      (ruleBasedExtract ⟨pt, qs, um⟩).eligibility.non_face = .no ∨
      (ruleBasedExtract ⟨pt, qs, um⟩).eligibility.non_face = .unknown) ∧
     ((ruleBasedExtract ⟨pt, qs, um⟩).eligibility.youth = .yes ∨
      (ruleBasedExtract ⟨pt, qs, um⟩).eligibility.youth = .no ∨
      (ruleBasedExtract ⟨pt, qs, um⟩).eligibility.youth = .unknown)) ∧
    (∀ pt2 qs2,
      (ruleBasedExtract ⟨pt2, qs2, um⟩).eligibility =
        (ruleBasedExtract ⟨pt, qs, um⟩).eligibility) ∧
    ((reTest pSalaryYes (jsTrim um) = false → reTest pSalaryNo (jsTrim um) = false →
      (ruleBasedExtract ⟨pt, qs, um⟩).eligibility.salary_transfer = .unknown) ∧
     (reTest pAutoYes (jsTrim um) = false → reTest pAutoNo (jsTrim um) = false →
      (ruleBasedExtract ⟨pt, qs, um⟩).eligibility.auto_transfer = .unknown) ∧
     (reTest pCardYes (jsTrim um) = false → reTest pCardNo (jsTrim um) = false →
      (ruleBasedExtract ⟨pt, qs, um⟩).eligibility.card_spend = .unknown) ∧
     (reTest pPrimaryYes (jsTrim um) = false → reTest pPrimaryNo (jsTrim um) = false →
      (ruleBasedExtract ⟨pt, qs, um⟩).eligibility.primary_bank = .unknown) ∧
     (reTest pNonFaceYes (jsTrim um) = false → reTest pNonFaceNo (jsTrim um) = false →
      (ruleBasedExtract ⟨pt, qs, um⟩).eligibility.non_face = .unknown) ∧
     (reTest pYouthYes (jsTrim um) = false → reTest pYouthNo (jsTrim um) = false →
      (ruleBasedExtract ⟨pt, qs, um⟩).eligibility.youth = .unknown)) := by
  refine ⟨⟨?_, ?_, ?_, ?_, ?_, ?_⟩, fun pt2 qs2 => rfl,
    ⟨fun h1 h2 => ?_, fun h1 h2 => ?_, fun h1 h2 => ?_, fun h1 h2 => ?_,
     fun h1 h2 => ?_, fun h1 h2 => ?_⟩⟩
  case _ => exact YesNoUnknown.mem_closed _
  case _ => exact YesNoUnknown.mem_closed _
  case _ => exact YesNoUnknown.mem_closed _
  case _ => exact YesNoUnknown.mem_closed _
  case _ => exact YesNoUnknown.mem_closed _
  case _ => exact YesNoUnknown.mem_closed _
  all_goals simp [ruleBasedExtract, detectYesNoUnknown, h1, h2]

/-- Witness for C9 at the empty input: all six fields are `unknown`. -/
theorem C9_witness :
    (ruleBasedExtract ⟨[], [], []⟩).eligibility.salary_transfer = .unknown ∧
    (ruleBasedExtract ⟨[], [], []⟩).eligibility.auto_transfer = .unknown ∧
    (ruleBasedExtract ⟨[], [], []⟩).eligibility.card_spend = .unknown ∧
    (ruleBasedExtract ⟨[], [], []⟩).eligibility.primary_bank = .unknown ∧
    (ruleBasedExtract ⟨[], [], []⟩).eligibility.non_face = .unknown ∧
    (ruleBasedExtract ⟨[], [], []⟩).eligibility.youth = .unknown := by
  have h := (C9_eligibility_invariant [] [] []).2.2
  exact ⟨h.1 (by decide) (by decide), h.2.1 (by decide) (by decide),
    h.2.2.1 (by decide) (by decide), h.2.2.2.1 (by decide) (by decide),
    h.2.2.2.2.1 (by decide) (by decide), h.2.2.2.2.2 (by decide) (by decide)⟩

/-- C5: a detected amount is routed to exactly one numeric slot by the
product-type / keyword precedence of the source `if` chain — savings with a
periodicity marker to `monthly_amount`, savings without one to `lump_sum`,
deposits to `lump_sum`, loans with an income marker to `income_monthly`,
loans without one to `desired_amount`, anything else to `lump_sum` — and
no other amount slot is set; when no amount is found, no amount slot is
set. -/
theorem C5_amount_routing (pt : List Char) (qs : List (List Char)) (um : List Char) :
    (∀ m, parseKoreanMoney (jsTrim um) = some m →
      ((reTest pSavings pt = true → reTest pPeriodic (jsTrim um) = true →
        (ruleBasedExtract ⟨pt, qs, um⟩).slots.monthly_amount = some m ∧
        (ruleBasedExtract ⟨pt, qs, um⟩).slots.lump_sum = none ∧
        (ruleBasedExtract ⟨pt, qs, um⟩).slots.income_monthly = none ∧
        (ruleBasedExtract ⟨pt, qs, um⟩).slots.desired_amount = none) ∧
       (reTest pSavings pt = true → reTest pPeriodic (jsTrim um) = false →
        (ruleBasedExtract ⟨pt, qs, um⟩).slots.lump_sum = some m ∧
        (ruleBasedExtract ⟨pt, qs, um⟩).slots.monthly_amount = none ∧
        (ruleBasedExtract ⟨pt, qs, um⟩).slots.income_monthly = none ∧
        (ruleBasedExtract ⟨pt, qs, um⟩).slots.desired_amount = none) ∧
       (reTest pSavings pt = false → reTest pDeposit pt = true →
        (ruleBasedExtract ⟨pt, qs, um⟩).slots.lump_sum = some m ∧
        (ruleBasedExtract ⟨pt, qs, um⟩).slots.monthly_amount = none ∧
        (ruleBasedExtract ⟨pt, qs, um⟩).slots.income_monthly = none ∧
        (ruleBasedExtract ⟨pt, qs, um⟩).slots.desired_amount = none) ∧
       (reTest pSavings pt = false → reTest pDeposit pt = false →
        reTest pLoan pt = true → reTest pIncome (jsTrim um) = true →
        (ruleBasedExtract ⟨pt, qs, um⟩).slots.income_monthly = some m ∧
        (ruleBasedExtract ⟨pt, qs, um⟩).slots.monthly_amount = none ∧
        (ruleBasedExtract ⟨pt, qs, um⟩).slots.lump_sum = none ∧
        (ruleBasedExtract ⟨pt, qs, um⟩).slots.desired_amount = none) ∧
       (reTest pSavings pt = false → reTest pDeposit pt = false →
        reTest pLoan pt = true → reTest pIncome (jsTrim um) = false →
        (ruleBasedExtract ⟨pt, qs, um⟩).slots.desired_amount = some m ∧
        (ruleBasedExtract ⟨pt, qs, um⟩).slots.monthly_amount = none ∧
        (ruleBasedExtract ⟨pt, qs, um⟩).slots.lump_sum = none ∧
        (ruleBasedExtract ⟨pt, qs, um⟩).slots.income_monthly = none) ∧
       (reTest pSavings pt = false → reTest pDeposit pt = false →
        reTest pLoan pt = false →
        (ruleBasedExtract ⟨pt, qs, um⟩).slots.lump_sum = some m ∧
        (ruleBasedExtract ⟨pt, qs, um⟩).slots.monthly_amount = none ∧
        (ruleBasedExtract ⟨pt, qs, um⟩).slots.income_monthly = none ∧
        (ruleBasedExtract ⟨pt, qs, um⟩).slots.desired_amount = none))) ∧
    (parseKoreanMoney (jsTrim um) = none →
      (ruleBasedExtract ⟨pt, qs, um⟩).slots.monthly_amount = none ∧
      (ruleBasedExtract ⟨pt, qs, um⟩).slots.lump_sum = none ∧
      (ruleBasedExtract ⟨pt, qs, um⟩).slots.income_monthly = none ∧
      (ruleBasedExtract ⟨pt, qs, um⟩).slots.desired_amount = none) := by
  constructor
  · intro m hm
    refine ⟨fun h1 h2 => ?_, fun h1 h2 => ?_, fun h1 h2 => ?_,
      fun h1 h2 h3 h4 => ?_, fun h1 h2 h3 h4 => ?_, fun h1 h2 h3 => ?_⟩ <;>
    simp [ruleBasedExtract, hm, h1, h2, *]
  · intro hm
    simp [ruleBasedExtract, hm]

/-- Witness for C5: the spec example routing a periodic savings amount to
`monthly_amount`. -/
theorem C5_witness :
    parseKoreanMoney (jsTrim (cs "매달 50만원씩 넣을게요")) = some 500000 ∧
    (ruleBasedExtract ⟨cs "적금", [], cs "매달 50만원씩 넣을게요"⟩).slots.monthly_amount =
      some 500000 ∧
    (ruleBasedExtract ⟨cs "적금", [], cs "매달 50만원씩 넣을게요"⟩).slots.lump_sum = none := by
  have h :=
    (((C5_amount_routing (cs "적금") [] (cs "매달 50만원씩 넣을게요")).1 500000
      (by decide)).1 (by decide) (by decide))
  exact ⟨by decide, h.1, h.2.1⟩

/-- The leftmost-scan of the money regex finds `v` exactly when some
position matches with value `v` and every earlier position fails. -/
theorem pkmScan_some_iff (s : List Char) (v : ℕ) :
    pkmScan s = some v ↔
      ∃ n, moneyMatchAt (s.drop n) = some v ∧
        ∀ m, m < n → moneyMatchAt (s.drop m) = none := by
  induction s with
  | nil =>
    simp only [pkmScan, List.drop_nil]
    constructor
    · intro h; cases h
    · rintro ⟨n, hn, -⟩
      simp [moneyMatchAt] at hn
  | cons c r ih =>
    cases h : moneyMatchAt (c :: r) with
    | some w =>
      simp only [pkmScan, h]
      constructor
      · rintro hv
        injection hv with hv
        exact ⟨0, by simpa [hv] using h, fun m hm => absurd hm (Nat.not_lt_zero m)⟩
      · rintro ⟨n, hn, hlt⟩
        cases n with
        | zero => simp only [List.drop_zero] at hn; rw [h] at hn; exact hn
        | succ k =>
          have := hlt 0 (Nat.succ_pos k)
          simp only [List.drop_zero] at this
          rw [h] at this; cases this
    | none =>
      simp only [pkmScan, h, ih]
      constructor
      · rintro ⟨n, hn, hlt⟩
        refine ⟨n + 1, by simpa using hn, fun m hm => ?_⟩
        cases m with
        | zero => simpa using h
        | succ k => simpa using hlt k (by omega)
      · rintro ⟨n, hn, hlt⟩
        cases n with
        | zero => simp only [List.drop_zero] at hn; rw [h] at hn; cases hn
        | succ k =>
          refine ⟨k, by simpa using hn, fun m hm => ?_⟩
          simpa using hlt (m + 1) (by omega)

/-- The leftmost-scan of the money regex finds nothing exactly when every
position fails. -/
theorem pkmScan_none_iff (s : List Char) :
    pkmScan s = none ↔ ∀ n, moneyMatchAt (s.drop n) = none := by
  induction s with
  | nil => simp [pkmScan, moneyMatchAt]
  | cons c r ih =>
    cases h : moneyMatchAt (c :: r) with
    | some w =>
      simp only [pkmScan, h]
      constructor
      · intro hv; cases hv
      · intro hall
        have := hall 0
        simp only [List.drop_zero] at this
        rw [h] at this; cases this
    | none =>
      simp only [pkmScan, h, ih]
      constructor
      · intro hall n
        cases n with
        | zero => simpa using h
        | succ k => simpa using hall k
      · intro hall n
        simpa using hall (n + 1)

/-- Round-half-up over naturals agrees with the exact rational
`⌊x + 1/2⌋` rounding of `Math.round` on nonnegative values. -/
theorem roundHalfUp_eq_floor (num den : ℕ) (hd : 0 < den) :
    (roundHalfUp num den : ℤ) = ⌊(num : ℚ) / den + 1 / 2⌋ := by
  have hden : ((den : ℚ)) ≠ 0 := by exact_mod_cast hd.ne'
  have heq : (num : ℚ) / den + 1 / 2 = ((2 * num + den : ℕ) : ℚ) / ((2 * den : ℕ) : ℚ) := by
    push_cast
    field_simp
    ring
  rw [heq, Rat.floor_natCast_div_natCast]
  simp [roundHalfUp, Int.natCast_div]

/-- Sanity of the rational model of the money parser on the spec's own
examples: `1.5억` rounds to exactly 150000000 with no residual fraction,
comma separators are removed before matching, and the first full match in
the text wins.  These evaluate the idealized exact-arithmetic model; the
program computes the magnitude in doubles, so its values can differ
beyond 53 bits of precision. -/
theorem parseKoreanMoney_model_examples :
    parseKoreanMoney (cs "1.5억") = some 150000000 ∧
    parseKoreanMoney (cs "2,000만원") = some 20000000 ∧
    parseKoreanMoney (cs "3년 5만원") = some 50000 := by
  refine ⟨by decide, by decide, by decide⟩

/-- C7: the payload classifier is total and dispatches in order: decode
failure yields the raw view carrying the (trimmed) raw text; a decoded
object with an array `products` field — even empty, and even if it also
has the slot-state shape — renders as a recommendation bundle; otherwise a
decoded value with truthy `slots`, `eligibility` and `meta` fields whose
`meta.user_uncertain` is a boolean renders as a slot state; anything else
falls back to the raw view.  No type-discriminator field is consulted. -/
theorem C7_classifier (value : List Char) :
    (jsonParse (jsTrim value) = none → classify value = .rawJson (jsTrim value)) ∧
    (∀ v fs, jsonParse (jsTrim value) = some v → v = JsonValue.obj fs →
      (∃ ps, getField fs (cs "products") = some (.arr ps)) →
      classify value = .productResult v) ∧
    (∀ v, jsonParse (jsTrim value) = some v →
      (∀ ps, getProp v (cs "products") ≠ some (.arr ps)) →
      jsTruthy v = true → isObjType v = true →
      (∃ w, getProp v (cs "slots") = some w ∧ jsTruthy w = true) →
      (∃ w, getProp v (cs "eligibility") = some w ∧ jsTruthy w = true) →
      (∃ w b, getProp v (cs "meta") = some w ∧ jsTruthy w = true ∧
        getProp w (cs "user_uncertain") = some (.bool b)) →
      classify value = .slotState v) ∧
    (∀ v, jsonParse (jsTrim value) = some v →
      isProductResult (some v) = false → isSlotState (some v) = false →
      classify value = .rawJson (jsTrim value)) := by
  refine ⟨fun hp => ?_, fun v fs hp hv hprod => ?_, fun v hp hnp htr hob hs he hm => ?_,
    fun v hp hpf hsf => ?_⟩
  · simp [classify, hp]
  · obtain ⟨ps, hps⟩ := hprod
    subst hv
    simp [classify, hp, isProductResult, jsTruthy, isObjType, getProp, hps]
  · have hpf : isProductResult (some v) = false := by
      cases hq : getProp v (cs "products") with
      | none => simp [isProductResult, htr, hob, hq]
      | some w =>
        cases w with
        | arr ps => exact absurd hq (hnp ps)
        | null => simp [isProductResult, htr, hob, hq]
        | bool b => simp [isProductResult, htr, hob, hq]
        | num lex => simp [isProductResult, htr, hob, hq]
        | str s => simp [isProductResult, htr, hob, hq]
        | obj fs => simp [isProductResult, htr, hob, hq]
    obtain ⟨w1, hw1, tw1⟩ := hs
    obtain ⟨w2, hw2, tw2⟩ := he
    obtain ⟨w3, b3, hw3, tw3, hu3⟩ := hm
    have hst : isSlotState (some v) = true := by
      simp [isSlotState, htr, hob, hw1, tw1, hw2, tw2, hw3, tw3, hu3]
    simp [classify, hp, hpf, hst]
  · simp [classify, hp, hpf, hsf]

/-- Witness for C7: an object with an empty `products` array classifies as
a recommendation bundle. -/
theorem C7_witness :
    classify (cs "\x7b\"products\":[]\x7d") =
      .productResult (.obj [(cs "products", .arr [])]) :=
  (C7_classifier (cs "\x7b\"products\":[]\x7d")).2.1
    (.obj [(cs "products", .arr [])]) [(cs "products", .arr [])]
    (by rfl) rfl ⟨[], rfl⟩

/-- Every `text` block produced by the fence-scanning loop is non-blank:
both the before-fence and the after-last-fence segments are guarded. -/
theorem scanBlocksF_text_ne_blank :
    ∀ (f : ℕ) (s x : List Char), Block.text x ∈ scanBlocksF f s → jsTrim x ≠ [] := by
  intro f
  induction f with
  | zero => intro s x h; simp [scanBlocksF] at h
  | succ f ih =>
    intro s x h
    simp only [scanBlocksF] at h
    split at h
    · split at h
      · simp at h
      · rename_i hne
        simp only [List.mem_singleton, Block.text.injEq] at h
        subst h; exact hne
    · split at h
      · split at h
        · simp at h
        · rename_i hne
          simp only [List.mem_singleton, Block.text.injEq] at h
          subst h; exact hne
      · rcases List.mem_append.mp h with h1 | h2
        · split at h1
          · simp at h1
          · rename_i hne
            simp only [List.mem_singleton, Block.text.injEq] at h1
            subst h1; exact hne
        · rcases List.mem_cons.mp h2 with h3 | h4
          · cases h3
          · exact ih _ _ h4

/-- When the message has no fence opener, the scan yields the whole message
as one text block, or nothing when it is blank. -/
theorem scanBlocks_no_fence (s : List Char) (h : splitAtFirst openTok s = none) :
    scanBlocks s = if jsTrim s = [] then [] else [Block.text s] := by
  show scanBlocksF (s.length + 1) s = _
  simp only [scanBlocksF, h]

/-- The empty string is not valid JSON. -/
theorem jsonParse_nil : jsonParse [] = none := rfl

/-- C2 amended: a blank (empty or whitespace-only) `text` block appears in
the segmenter output only through the final fallback, when the fence scan
produced no block at all and the entire message is returned as a single
`text` block; within the fence-scanning path, whitespace-only segments
never yield `text` blocks. -/
theorem C2_blank_text_amended (m s : List Char)
    (hmem : Block.text s ∈ splitTextAndJsonBlocks m)
    (hblank : jsTrim s = []) :
    s = m ∧ scanBlocks m = [] ∧ splitTextAndJsonBlocks m = [Block.text m] := by
  simp only [splitTextAndJsonBlocks] at hmem ⊢
  split at hmem
  · simp at hmem
  · split at hmem
    · rename_i hguard hempty
      simp only [List.mem_singleton, Block.text.injEq] at hmem
      subst hmem
      refine ⟨rfl, hempty, ?_⟩
      rw [if_neg hguard, if_pos hempty]
    · exact absurd hblank (scanBlocksF_text_ne_blank _ _ _ hmem)

/-- Witness for C2 amended at the single-space message. -/
theorem C2_witness :
    cs " " = cs " " ∧ scanBlocks (cs " ") = [] ∧
    splitTextAndJsonBlocks (cs " ") = [Block.text (cs " ")] :=
  C2_blank_text_amended (cs " ") (cs " ") (by decide) (by decide)

/-- C10: the whole-message rule requires a truthy decoded `object`; a
message whose trimmed text decodes to a primitive (or `null`, which is
`typeof object` but falsy) is not returned as a structured block, and with
no fence opener present it becomes a single `text` block holding the whole
message. -/
theorem C10_primitive_whole (m : List Char) (v : JsonValue)
    (hp : jsonParse (jsTrim m) = some v)
    (hprim : (jsTruthy v && isObjType v) = false)
    (hnof : splitAtFirst openTok m = none) :
    splitTextAndJsonBlocks m = [Block.text m] := by
  have hne : jsTrim m ≠ [] := by
    intro h0
    rw [h0, jsonParse_nil] at hp
    cases hp
  have hscan : scanBlocks m = [Block.text m] := by
    rw [scanBlocks_no_fence m hnof, if_neg hne]
  simp [splitTextAndJsonBlocks, hp, hprim, hscan]

/-- Witness for C10: the message `42` is valid JSON but a number, and is
rendered as a single text block. -/
theorem C10_witness :
    splitTextAndJsonBlocks (cs "42") = [Block.text (cs "42")] :=
  C10_primitive_whole (cs "42") (.num (cs "42")) (by rfl) (by rfl) (by decide)

/-- A pattern case-insensitively matches at the start of itself followed by
anything. -/
theorem ciStarts_self_append (p T : List Char) : ciStarts p (p ++ T) = true := by
  induction p with
  | nil => simp [ciStarts]
  | cons c p' ih => simp [ciStarts, ciEq, ih]

/-- A match of `x` against a prefix of `y ++ z` no longer than `y` is a
match against `y`. -/
theorem ciStarts_of_append_left :
    ∀ (x y z : List Char), x.length ≤ y.length → ciStarts x (y ++ z) = true →
      ciStarts x y = true := by
  intro x
  induction x with
  | nil => intro y z _ _; simp [ciStarts]
  | cons a x' ih =>
    intro y z hlen h
    cases y with
    | nil => simp at hlen
    | cons b y' =>
      simp only [List.cons_append, ciStarts, Bool.and_eq_true] at h ⊢
      exact ⟨h.1, ih y' z (by simpa using hlen) h.2⟩

/-- A match of `p` across `a ++ b` with `a` shorter than `p` continues as a
match of the rest of `p` against `b`. -/
theorem ciStarts_drop_of_append :
    ∀ (a p b : List Char), a.length ≤ p.length → ciStarts p (a ++ b) = true →
      ciStarts (p.drop a.length) b = true := by
  intro a
  induction a with
  | nil => intro p b _ h; simpa using h
  | cons c a' ih =>
    intro p b hlen h
    cases p with
    | nil => simp at hlen
    | cons d p' =>
      simp only [List.cons_append, ciStarts, Bool.and_eq_true] at h
      simpa using ih p' b (by simpa using hlen) h.2

/-- The fence opener has no nontrivial self-overlap: no proper tail of it
is a case-insensitive prefix of it. -/
theorem openTok_no_overlap :
    ∀ k, k < openTok.length → 0 < k → ciStarts (openTok.drop k) openTok = false := by
  decide

/-- Splitting a nonempty pattern off the front of itself. -/
theorem splitAtFirst_self (p T : List Char) (hp : p ≠ []) :
    splitAtFirst p (p ++ T) = some ([], T) := by
  cases p with
  | nil => exact absurd rfl hp
  | cons c p' =>
    rw [List.cons_append, splitAtFirst, if_pos]
    · rw [← List.cons_append, List.drop_left]
    · rw [← List.cons_append]
      exact ciStarts_self_append (c :: p') T

/-- Failure of the leftmost search on a cons decomposes into failure at the
head position and failure on the tail. -/
theorem splitAtFirst_cons_none {p : List Char} {c : Char} {rest : List Char}
    (h : splitAtFirst p (c :: rest) = none) :
    ciStarts p (c :: rest) = false ∧ splitAtFirst p rest = none := by
  simp only [splitAtFirst] at h
  split at h
  · cases h
  · rename_i hff
    refine ⟨by simpa using hff, ?_⟩
    cases hsp : splitAtFirst p rest with
    | some q => rw [hsp] at h; cases h
    | none => rfl

/-- When the fence opener does not occur in `s`, the leftmost search on
`s ++ openTok ++ T` finds the opener exactly at the boundary. -/
theorem splitAtFirst_openTok_append :
    ∀ (s T : List Char), splitAtFirst openTok s = none →
      splitAtFirst openTok (s ++ (openTok ++ T)) = some (s, T) := by
  intro s
  induction s with
  | nil =>
    intro T _
    simpa using splitAtFirst_self openTok T (by decide)
  | cons c s' ih =>
    intro T hnone
    obtain ⟨hh, hrest⟩ := splitAtFirst_cons_none hnone
    have hfalse : ciStarts openTok (c :: (s' ++ (openTok ++ T))) = false := by
      by_contra hc
      have htrue : ciStarts openTok ((c :: s') ++ (openTok ++ T)) = true := by
        rw [List.cons_append]
        exact Bool.of_not_eq_false hc
      by_cases hlen : openTok.length ≤ (c :: s').length
      · rw [ciStarts_of_append_left openTok (c :: s') (openTok ++ T) hlen htrue] at hh
        cases hh
      · push_neg at hlen
        have hdrop := ciStarts_drop_of_append (c :: s') openTok (openTok ++ T)
          (Nat.le_of_lt hlen) htrue
        have hleft := ciStarts_of_append_left (openTok.drop (c :: s').length) openTok T
          (by simp) hdrop
        rw [openTok_no_overlap (c :: s').length hlen (Nat.succ_pos _)] at hleft
        cases hleft
    rw [List.cons_append, splitAtFirst, if_neg (by simp [hfalse]), ih T hrest]

/-- The closer `openTok` is irrelevant to: when the fence closer does not
occur in `j` and `j` does not end in a backtick, the leftmost search on
`j ++ closeTok ++ T` finds the closer exactly at the boundary. -/
theorem splitAtFirst_closeTok_append :
    ∀ (j T : List Char), splitAtFirst closeTok j = none →
      (match j.getLast? with
       | some c => ciEq btChar c = false
       | none => True) →
      splitAtFirst closeTok (j ++ (closeTok ++ T)) = some (j, T) := by
  intro j
  induction j with
  | nil =>
    intro T _ _
    simpa using splitAtFirst_self closeTok T (by decide)
  | cons c jtl ih =>
    intro T hnone hlast
    obtain ⟨hh, hrest⟩ := splitAtFirst_cons_none hnone
    have hct : closeTok = [btChar, btChar, btChar] := by decide
    have hfalse : ciStarts closeTok (c :: (jtl ++ (closeTok ++ T))) = false := by
      cases jtl with
      | nil =>
        have hl : ciEq btChar c = false := by simpa using hlast
        rw [hct]
        simp [ciStarts, hl]
      | cons b1 j2 =>
        cases j2 with
        | nil =>
          have hl : ciEq btChar b1 = false := by simpa using hlast
          rw [hct]
          simp [ciStarts, hl]
        | cons b2 j3 =>
          rw [hct] at hh ⊢
          simp only [List.cons_append]
          calc ciStarts [btChar, btChar, btChar]
                (c :: b1 :: b2 :: (j3 ++ (closeTok ++ T)))
              = ciStarts [btChar, btChar, btChar] (c :: b1 :: b2 :: j3) := by
                simp [ciStarts]
            _ = false := hh
    have hlast2 :
        (match jtl.getLast? with
         | some c => ciEq btChar c = false
         | none => True) := by
      cases jtl with
      | nil => trivial
      | cons b1 j2 => simpa [List.getLast?_cons_cons] using hlast
    rw [List.cons_append, splitAtFirst, if_neg (by simp [hfalse]), ih T hrest hlast2]

/-- Concatenation with reinserted fences distributes over block-list
append. -/
theorem joinBlocks_append (a b : List Block) :
    joinBlocks (a ++ b) = joinBlocks a ++ joinBlocks b := by
  induction a with
  | nil => simp [joinBlocks]
  | cons hd tl ih =>
    cases hd with
    | text s => simp [joinBlocks, ih]
    | json s => simp [joinBlocks, ih]

/-- Scanning a well-formed composition and concatenating the blocks with
fences reinserted gives back the message. -/
theorem joinBlocks_scan_render :
    ∀ (f : ℕ) (t0 : List Char) (fences : List (List Char × List Char)),
      wfFencesB t0 fences = true →
      (renderMsg t0 fences).length < f →
      joinBlocks (scanBlocksF f (renderMsg t0 fences)) = renderMsg t0 fences := by
  intro f
  induction f with
  | zero => intro t0 fences _ hlen; exact absurd hlen (Nat.not_lt_zero _)
  | succ f ih =>
    intro t0 fences hwf hlen
    cases fences with
    | nil =>
      simp only [renderMsg] at hlen ⊢
      simp only [wfFencesB, wfTextB, Bool.and_eq_true, Bool.or_eq_true,
        decide_eq_true_eq] at hwf
      obtain ⟨hblank, hnone⟩ := hwf
      simp only [scanBlocksF, hnone]
      by_cases hb : jsTrim t0 = []
      · rcases hblank with he | hne
        · subst he; simp [joinBlocks]
        · exact absurd hb hne
      · rw [if_neg hb]; simp [joinBlocks]
    | cons hd r =>
      obtain ⟨j, t⟩ := hd
      simp only [wfFencesB, Bool.and_eq_true] at hwf
      obtain ⟨⟨hwt0, hwj⟩, hwr⟩ := hwf
      simp only [wfTextB, Bool.and_eq_true, Bool.or_eq_true, decide_eq_true_eq] at hwt0
      obtain ⟨hblank0, hnone0⟩ := hwt0
      simp only [wfInnerB, Bool.and_eq_true, decide_eq_true_eq] at hwj
      obtain ⟨⟨hjt, hjnone⟩, hjlastB⟩ := hwj
      have hjlast :
          (match j.getLast? with
           | some c => ciEq btChar c = false
           | none => True) := by
        cases hgl : j.getLast? with
        | none => trivial
        | some c => rw [hgl] at hjlastB; simpa using hjlastB
      have hform : renderMsg t0 ((j, t) :: r) =
          t0 ++ (openTok ++ (j ++ (closeTok ++ renderMsg t r))) := by
        simp [renderMsg, List.append_assoc]
      have h1 : splitAtFirst openTok
          (t0 ++ (openTok ++ (j ++ (closeTok ++ renderMsg t r)))) =
          some (t0, j ++ (closeTok ++ renderMsg t r)) :=
        splitAtFirst_openTok_append t0 _ hnone0
      have h2 : splitAtFirst closeTok (j ++ (closeTok ++ renderMsg t r)) =
          some (j, renderMsg t r) :=
        splitAtFirst_closeTok_append j _ hjnone hjlast
      have hlen2 : (renderMsg t r).length < f := by
        rw [hform] at hlen
        have ho : openTok.length = 7 := by decide
        have hc : closeTok.length = 3 := by decide
        simp only [List.length_append, ho, hc] at hlen
        omega
      have hIH := ih t r hwr hlen2
      rw [hform]
      simp only [scanBlocksF, h1, h2]
      rw [joinBlocks_append]
      by_cases hb : jsTrim t0 = []
      · have ht0 : t0 = [] := by
          rcases hblank0 with he | hne
          · exact he
          · exact absurd hb hne
        subst ht0
        simp [joinBlocks, hjt, hIH]
      · rw [if_neg hb]
        simp [joinBlocks, hjt, hIH]

/-- C1 amended: round-trip holds for every message composed of text
segments and well-formed `json` fences provided each text segment is empty
or non-blank and contains no fence opener, each fenced content carries no
whitespace padding against its fence markers, contains no fence closer and
does not end in a backtick, and the whole trimmed message does not itself
decode to a JSON object or array.  (The counterexample shows whitespace
padding inside a fence is consumed, so the unconditional claim fails;
blank text segments are likewise consumed.) -/
theorem C1_roundtrip_amended (t0 : List Char) (fences : List (List Char × List Char))
    (hwf : wfFencesB t0 fences = true)
    (hguard : wholeGuardB (renderMsg t0 fences) = true) :
    joinBlocks (splitTextAndJsonBlocks (renderMsg t0 fences)) = renderMsg t0 fences := by
  have hscan := joinBlocks_scan_render ((renderMsg t0 fences).length + 1) t0 fences hwf
    (Nat.lt_succ_self _)
  have hcond : (match jsonParse (jsTrim (renderMsg t0 fences)) with
      | some v => jsTruthy v && isObjType v
      | none => false) = false := by
    simp only [wholeGuardB] at hguard
    cases hj : jsonParse (jsTrim (renderMsg t0 fences)) with
    | none => rfl
    | some v =>
      rw [hj] at hguard
      have hg2 : (!(jsTruthy v && isObjType v)) = true := hguard
      show (jsTruthy v && isObjType v) = false
      cases hb : (jsTruthy v && isObjType v) with
      | false => rfl
      | true => rw [hb] at hg2; simp at hg2
  simp only [splitTextAndJsonBlocks, hcond, Bool.false_eq_true, if_false]
  split
  · simp [joinBlocks]
  · exact hscan

/-- Witness for C1 amended on a concrete two-text one-fence message. -/
theorem C1_witness :
    wfFencesB (cs "Hello ") [(cs "\x7b\x7d", cs " bye")] = true ∧
    joinBlocks (splitTextAndJsonBlocks
        (renderMsg (cs "Hello ") [(cs "\x7b\x7d", cs " bye")])) =
      renderMsg (cs "Hello ") [(cs "\x7b\x7d", cs " bye")] :=
  ⟨by decide, C1_roundtrip_amended _ _ (by decide) (by decide)⟩

/-- The iterated-multiplication powers of ten agree with `10 ^ ·`. -/
theorem pow10_eq (k : ℕ) : pow10 k = 10 ^ k := by
  induction k with
  | zero => rfl
  | succ k ih => rw [pow10, ih, pow_succ]; ring

/-- The overflow threshold written with powers of two. -/
theorem jsMaxFiniteBound_eq : jsMaxFiniteBound = 2 ^ 1024 - 2 ^ 970 := by
  unfold jsMaxFiniteBound
  rw [Nat.shiftLeft_eq, Nat.shiftLeft_eq, one_mul, one_mul]

/-- The shift in the underflow test of `numIsZero` is multiplication by
`2 ^ 1075`. -/
theorem numIsZero_shift_eq (M : ℕ) : M <<< 1075 = M * 2 ^ 1075 := by
  rw [Nat.shiftLeft_eq]

set_option maxRecDepth 4000 in
/-- Sanity of the number-truthiness model at the underflow boundary:
`1e-324` decodes to the double zero (falsy) while `5e-324`, which rounds
to the smallest subnormal, does not. -/
theorem numIsZero_boundary_examples :
    numIsZero (cs "1e-324") = true ∧ numIsZero (cs "5e-324") = false ∧
    numIsZero (cs "0") = true ∧ numIsZero (cs "42") = false := by
  refine ⟨by decide, by decide, by decide, by decide⟩

end BankAgent
